import Mathlib

/-!
Shallow embedding of the dynamodb-email-indexer repository (Rust, tantivy +
DynamoDB CDC stream), covering:

* `src/attribute_helper.rs` — the attribute codec (`AttributeHelper`);
* `src/email.rs` — `Email` and its attribute-map decoder;
* `src/bin/email_index_writer.rs` — the change applier (`index_write`,
  `parse_document`, `get_id_term`) over a trace of tantivy index operations;
* `src/bin/index_writer.rs` — the older change applier (`func`) with
  skip-on-decode-failure semantics;
* `src/bin/email_index_reader.rs` — the query pipeline (`search`,
  `batch_get_items`) and the search envelope
  (`src/search_request.rs`, `src/search_response.rs`).

Machine integers are modelled as `Nat`/`Int`; tantivy's writer is modelled as
a trace of staged operations applied by an explicit commit machine; the
DynamoDB client is modelled as a function from a requested chunk of keys to
the rows the store returns for that chunk.
-/

namespace DDB

/-- DynamoDB attribute value. Both the stream-event attribute type
(`aws_lambda_events::dynamodb::attributes::AttributeValue`, variants
`String`/`StringSet`/`Number`/...) and the SDK attribute type
(`aws_sdk_dynamodb::model::AttributeValue`, variants `S`/`Ss`/`N`/...) are
modelled by this one type; the code only ever matches the string and
string-set variants, everything else falls into `other`. -/
inductive AttributeValue where
  | S (value : String)
  | Ss (values : List String)
  | N (value : String)
  | other
deriving DecidableEq

/-- A `HashMap<String, AttributeValue>`, as an association list. -/
abbrev AttributeMap := List (String × AttributeValue)

/-- Model of `HashMap::get`: first binding for the key, if any. -/
def AttributeMap.get : AttributeMap → String → Option AttributeValue
  | [], _ => none
  | (k, v) :: rest, name => if k = name then some v else AttributeMap.get rest name

/-- Model of Rust's `str::parse::<i64>()`: an optional leading sign followed
by at least one decimal digit, with the value required to fit in a signed
64-bit integer; `none` models a `ParseIntError`. -/
def digitsToNat : List Char → Option Nat
  | [] => none
  | cs => if cs.all Char.isDigit then
            some (cs.foldl (fun acc c => acc * 10 + (c.toNat - 48)) 0)
          else none

def parseI64 (s : String) : Option Int :=
  match s.toList with
  | [] => none
  | c :: rest =>
    let signed : Bool × List Char :=
      if c = '-' then (true, rest) else if c = '+' then (false, rest) else (false, c :: rest)
    match digitsToNat signed.2 with
    | none => none
    | some n =>
      if signed.1 then
        if n ≤ 2 ^ 63 then some (-(n : Int)) else none
      else
        if n ≤ 2 ^ 63 - 1 then some (n : Int) else none

namespace AttributeHelper

/-- Embeds `AttributeHelper::parse_string` (src/attribute_helper.rs): the value of an
`S`-tagged field, else the error `"{name} missing"`. -/
def parse_string (attributes : AttributeMap) (attribute_name : String) :
    Except String String :=
  match attributes.get attribute_name with
  | some (AttributeValue.S value) => Except.ok value
  | _ => Except.error (attribute_name ++ " missing")

/-- Embeds `AttributeHelper::parse_int_64` (src/attribute_helper.rs): the value of an
`S`-tagged field parsed as an `i64`; a failed integer parse propagates a
`ParseIntError` distinct from the missing-field error. -/
def parse_int_64 (attributes : AttributeMap) (attribute_name : String) :
    Except String Int :=
  match attributes.get attribute_name with
  | some (AttributeValue.S value) =>
    match parseI64 value with
    | some result => Except.ok result
    | none => Except.error "invalid digit found in string"
  | _ => Except.error (attribute_name ++ " missing")

/-- Embeds `AttributeHelper::parse_string_array` (src/attribute_helper.rs). -/
def parse_string_array (attributes : AttributeMap) (attribute_name : String) :
    Except String (List String) :=
  match attributes.get attribute_name with
  | some (AttributeValue.Ss values) => Except.ok values
  | _ => Except.error (attribute_name ++ " missing")

end AttributeHelper

/-- The `Email` record (src/email.rs). -/
structure Email where
  id : String
  timestamp : Int
  subject : String
  body : String
  «to» : List String
deriving DecidableEq

/-- Embeds `Email::from` (src/email.rs). -/
def Email.fromAttributes (attributes : AttributeMap) : Except String Email := do
  let id ← AttributeHelper.parse_string attributes "id"
  let timestamp ← AttributeHelper.parse_int_64 attributes "timestamp"
  let subject ← AttributeHelper.parse_string attributes "subject"
  let body ← AttributeHelper.parse_string attributes "body"
  let tos ← AttributeHelper.parse_string_array attributes "to"
  Except.ok { id := id, timestamp := timestamp, subject := subject, body := body, «to» := tos }

/-- One DynamoDB stream change record: `record.event_name` plus
`record.change.new_image` / `record.change.old_image` (the event type
defaults absent images to empty maps). -/
structure StreamRecord where
  event_name : String
  new_image : AttributeMap
  old_image : AttributeMap

/-- The tantivy document built by `parse_document`
(src/bin/email_index_writer.rs): the `doc!` of id/timestamp/subject/body plus
one `add_text` of the `to` field per recipient. -/
structure Document where
  id : String
  timestamp : Int
  subject : String
  body : String
  «to» : List String
deriving DecidableEq

/-- A staged tantivy writer operation; `commit` is `IndexWriter::commit`. -/
inductive IndexOp where
  | add (doc : Document)
  | deleteTerm (id : String)
  | commit
deriving DecidableEq

def IndexOp.isCommit : IndexOp → Bool
  | IndexOp.commit => true
  | _ => false

/-- The aggregate counters reported by the writers (`json!` at the end of
`index_write` / `func`). -/
structure ApplyReport where
  total : Nat
  created : Nat
  updated : Nat
  deleted : Nat
  skipped : Nat
deriving DecidableEq

namespace email_index_writer

/-- Embeds `parse_string` (src/bin/email_index_writer.rs): same shape as the helper
codec, over the stream event's attribute values. -/
def parse_string (attributes : AttributeMap) (attribute_name : String) :
    Except String String :=
  match attributes.get attribute_name with
  | some (AttributeValue.S value) => Except.ok value
  | _ => Except.error (attribute_name ++ " missing")

/-- Embeds `parse_string_array` (src/bin/email_index_writer.rs). -/
def parse_string_array (attributes : AttributeMap) (attribute_name : String) :
    Except String (List String) :=
  match attributes.get attribute_name with
  | some (AttributeValue.Ss values) => Except.ok values
  | _ => Except.error (attribute_name ++ " missing")

/-- Embeds `parse_document` (src/bin/email_index_writer.rs): decode id, timestamp
(string then `parse::<i64>()?`), subject, body and to, in that order, any
failure propagating. -/
def parse_document (attributes : AttributeMap) : Except String Document := do
  let id ← parse_string attributes "id"
  let tsString ← parse_string attributes "timestamp"
  let timestamp ←
    match parseI64 tsString with
    | some n => Except.ok n
    | none => Except.error "invalid digit found in string"
  let subject ← parse_string attributes "subject"
  let body ← parse_string attributes "body"
  let tos ← parse_string_array attributes "to"
  Except.ok { id := id, timestamp := timestamp, subject := subject, body := body, «to» := tos }

/-- The per-record action of the `match record.event_name.as_str()` arms of
`index_write`: which image is decoded and what is staged. A decode failure
(`?` on `parse_document`) aborts with the error. -/
inductive RecordAction where
  | ins (doc : Document)
  | mod (doc : Document)
  | rem (doc : Document)
  | skip
  | fail (e : String)

def classifyRecord (r : StreamRecord) : RecordAction :=
  if r.event_name = "INSERT" then
    match parse_document r.new_image with
    | Except.ok doc => RecordAction.ins doc
    | Except.error e => RecordAction.fail e
  else if r.event_name = "MODIFY" then
    match parse_document r.new_image with
    | Except.ok doc => RecordAction.mod doc
    | Except.error e => RecordAction.fail e
  else if r.event_name = "REMOVE" then
    match parse_document r.old_image with
    | Except.ok doc => RecordAction.rem doc
    | Except.error e => RecordAction.fail e
  else RecordAction.skip

/-- The `for record in event.records` loop of `index_write`
(src/bin/email_index_writer.rs): INSERT stages `add_document`; MODIFY stages
`delete_term` on the id term (`get_id_term`) then `add_document`; REMOVE
decodes `old_image` and stages `delete_term`; any other event name does
nothing; a decode failure returns the error immediately (the `?`). -/
def indexWriteLoop :
    List StreamRecord → List IndexOp × Nat × Nat × Nat →
    Except String (List IndexOp × Nat × Nat × Nat)
  | [], acc => Except.ok acc
  | r :: rest, (ops, created, updated, deleted) =>
    match classifyRecord r with
    | RecordAction.ins doc =>
      indexWriteLoop rest (ops ++ [IndexOp.add doc], created + 1, updated, deleted)
    | RecordAction.mod doc =>
      indexWriteLoop rest
        (ops ++ [IndexOp.deleteTerm doc.id, IndexOp.add doc], created, updated + 1, deleted)
    | RecordAction.rem doc =>
      indexWriteLoop rest (ops ++ [IndexOp.deleteTerm doc.id], created, updated, deleted + 1)
    | RecordAction.skip => indexWriteLoop rest (ops, created, updated, deleted)
    | RecordAction.fail e => Except.error e

/-- Embeds `index_write` (src/bin/email_index_writer.rs): run the loop over the
batch, then issue the single `index_writer.commit()?`, reporting
`total`/`created`/`updated`/`deleted` and `skipped = total - created -
updated - deleted`. The returned trace is every staged operation in order,
ending in the one commit. -/
def index_write (records : List StreamRecord) :
    Except String (ApplyReport × List IndexOp) :=
  match indexWriteLoop records ([], 0, 0, 0) with
  | Except.error e => Except.error e
  | Except.ok (ops, created, updated, deleted) =>
    let total := records.length
    Except.ok
      ({ total := total, created := created, updated := updated, deleted := deleted,
         skipped := total - created - updated - deleted },
       ops ++ [IndexOp.commit])

end email_index_writer

/-- The tantivy index as seen through commits: `working` is the document
multiset as the staged operations mutate it in opstamp order; `committed`
is what a reader snapshot sees, updated only by `commit`. -/
structure IndexMachine where
  committed : List Document
  working : List Document
deriving DecidableEq

def stepOp (s : IndexMachine) : IndexOp → IndexMachine
  | IndexOp.add doc => { s with working := s.working ++ [doc] }
  | IndexOp.deleteTerm t => { s with working := s.working.filter (fun d => d.id ≠ t) }
  | IndexOp.commit => { s with committed := s.working }

def runOps (s : IndexMachine) (ops : List IndexOp) : IndexMachine :=
  ops.foldl stepOp s

def initMachine (docs : List Document) : IndexMachine :=
  { committed := docs, working := docs }

/-- The net effect of one change record on the document list: what the
`index_write` arms stage for it, applied directly. -/
def recordEffect (docs : List Document) (r : StreamRecord) : List Document :=
  match email_index_writer.classifyRecord r with
  | email_index_writer.RecordAction.ins doc => docs ++ [doc]
  | email_index_writer.RecordAction.mod doc =>
    docs.filter (fun d => d.id ≠ doc.id) ++ [doc]
  | email_index_writer.RecordAction.rem doc => docs.filter (fun d => d.id ≠ doc.id)
  | email_index_writer.RecordAction.skip => docs
  | email_index_writer.RecordAction.fail _ => docs

/-- Apply one batch through `index_write` to a committed document list:
the committed state after the trace (staged operations then the single
commit) runs against the index. -/
def applyBatchToDocs (docs : List Document) (records : List StreamRecord) :
    Except String (List Document) :=
  match email_index_writer.index_write records with
  | Except.error e => Except.error e
  | Except.ok (_, ops) => Except.ok (runOps (initMachine docs) ops).committed

namespace index_writer

/-- The document built by `parse_document` in src/bin/index_writer.rs:
pk/sk stored fields, the `pksk` identity `"{pk}:{sk}"`, subject and body. -/
structure PkDocument where
  pksk : String
  pk : String
  sk : String
  subject : String
  body : String
deriving DecidableEq

/-- A staged tantivy operation of the older writer, keyed by `pksk`. -/
inductive PkIndexOp where
  | add (doc : PkDocument)
  | deleteTerm (pksk : String)
  | commit
deriving DecidableEq

/-- Embeds `parse_document` (src/bin/index_writer.rs): the `PK`, `SK`, `subject` and
`body` must each be present with the string variant; any of them missing or
wrongly tagged yields `None` (the record is then silently skipped by the
loop). -/
def parse_document (new_image : AttributeMap) : Option PkDocument :=
  match new_image.get "PK" with
  | some (AttributeValue.S pk) =>
    match new_image.get "SK" with
    | some (AttributeValue.S sk) =>
      match new_image.get "subject" with
      | some (AttributeValue.S subject) =>
        match new_image.get "body" with
        | some (AttributeValue.S body) =>
          some { pksk := pk ++ ":" ++ sk, pk := pk, sk := sk,
                 subject := subject, body := body }
        | _ => none
      | _ => none
    | _ => none
  | _ => none

/-- The per-record action of the `match record.event_name.as_str()` arms of
`func` (src/bin/index_writer.rs): `if let Some(doc) = parse_document(..)`
stages the operation, a `None` falls through (skip, continue); unknown event
names do nothing. -/
inductive PkAction where
  | ins (doc : PkDocument)
  | mod (doc : PkDocument)
  | rem (doc : PkDocument)
  | skip

def classifyRecord (r : StreamRecord) : PkAction :=
  if r.event_name = "INSERT" then
    match parse_document r.new_image with
    | some doc => PkAction.ins doc
    | none => PkAction.skip
  else if r.event_name = "MODIFY" then
    match parse_document r.new_image with
    | some doc => PkAction.mod doc
    | none => PkAction.skip
  else if r.event_name = "REMOVE" then
    match parse_document r.old_image with
    | some doc => PkAction.rem doc
    | none => PkAction.skip
  else PkAction.skip

/-- The `for record in event.records` loop of `func` (src/bin/index_writer.rs). -/
def funcLoop :
    List StreamRecord → List PkIndexOp × Nat × Nat × Nat →
    List PkIndexOp × Nat × Nat × Nat
  | [], acc => acc
  | r :: rest, (ops, created, updated, deleted) =>
    match classifyRecord r with
    | PkAction.ins doc =>
      funcLoop rest (ops ++ [PkIndexOp.add doc], created + 1, updated, deleted)
    | PkAction.mod doc =>
      funcLoop rest
        (ops ++ [PkIndexOp.deleteTerm doc.pksk, PkIndexOp.add doc],
         created, updated + 1, deleted)
    | PkAction.rem doc =>
      funcLoop rest (ops ++ [PkIndexOp.deleteTerm doc.pksk], created, updated, deleted + 1)
    | PkAction.skip => funcLoop rest (ops, created, updated, deleted)

/-- Embeds `func` (src/bin/index_writer.rs): the batch loop followed by the single
`index_writer.commit()?`, with `skipped = total - created - updated -
deleted`. -/
def func (records : List StreamRecord) : ApplyReport × List PkIndexOp :=
  match funcLoop records ([], 0, 0, 0) with
  | (ops, created, updated, deleted) =>
    let total := records.length
    ({ total := total, created := created, updated := updated, deleted := deleted,
       skipped := total - created - updated - deleted },
     ops ++ [PkIndexOp.commit])

end index_writer

/-! ## Reader side: src/bin/email_index_reader.rs -/

/-- The `SearchRequest` envelope (src/search_request.rs). -/
structure SearchRequest where
  query : Option String
  limit : Option Nat

/-- The `SearchResponse` envelope (src/search_response.rs). -/
structure SearchResponse where
  index_num_docs : Option Nat
  query_num_docs : Option Nat
  emails : Option (List Email)
  error : Option String
deriving DecidableEq

/-- Embeds `SearchResponse::error` (src/search_response.rs): only `error`
populated, every other field left at its `Default` (`None`). -/
def SearchResponse.mkError (error : String) : SearchResponse :=
  { index_num_docs := none, query_num_docs := none, emails := none,
    error := some error }

/-- Embeds `SearchResponse::success` (src/search_response.rs): the success triple
populated, `error: None`. -/
def SearchResponse.mkSuccess (total : Nat) (count : Nat) (emails : List Email) :
    SearchResponse :=
  { index_num_docs := some total, query_num_docs := some count,
    emails := some emails, error := none }

/-- Fueled worker for `slice::chunks(n)`: `fuel` bounds the recursion depth and
any `fuel ≥ l.length` gives the real chunking (for `0 < n`). -/
def chunksGo (n : Nat) : Nat → List α → List (List α)
  | 0, _ => []
  | _, [] => []
  | fuel + 1, l => l.take n :: chunksGo n fuel (l.drop n)

/-- Rust's `slice::chunks(n)`: all chunks of length `n` in order, the last
possibly shorter; no chunks for an empty slice. -/
def chunksList (n : Nat) (l : List α) : List (List α) :=
  chunksGo n l.length l

/-- The per-row decode-and-push loop inside `batch_get_items`: each returned
row goes through `Email::from(attributes)?`, a failure propagating. -/
def decodeRows : List AttributeMap → Except String (List Email)
  | [] => Except.ok []
  | attributes :: rest =>
    match Email.fromAttributes attributes with
    | Except.error e => Except.error e
    | Except.ok email =>
      match decodeRows rest with
      | Except.error e => Except.error e
      | Except.ok emails => Except.ok (email :: emails)

/-- The `for batch in ids.chunks(100)` loop of `batch_get_items`: one
`BatchGetItem` request per chunk (`store chunk` is the list of rows the
store's response carries for the table), rows decoded and appended in
response order. The second component counts the requests issued. -/
def hydrateChunks (store : List String → List AttributeMap) :
    List (List String) → Except String (List Email × Nat)
  | [] => Except.ok ([], 0)
  | chunk :: rest =>
    match decodeRows (store chunk) with
    | Except.error e => Except.error e
    | Except.ok emails =>
      match hydrateChunks store rest with
      | Except.error e => Except.error e
      | Except.ok (more, requests) => Except.ok (emails ++ more, requests + 1)

/-- Embeds `batch_get_items` (src/bin/email_index_reader.rs). -/
def batch_get_items (store : List String → List AttributeMap) (ids : List String) :
    Except String (List Email × Nat) :=
  hydrateChunks store (chunksList 100 ids)

/-- A parsed tantivy query, abstracted at the engine boundary: which live
documents it matches and their relevance score. Scores are modelled as
naturals (the ordering is all the claims use). -/
structure ParsedQuery where
  isMatch : Document → Bool
  score : Document → Nat

/-- Stable descending insertion by score: `d` goes in front of the first
strictly lower-scored element. -/
def insertDesc (score : Document → Nat) (d : Document) :
    List Document → List Document
  | [] => [d]
  | x :: xs => if score x < score d then d :: x :: xs else x :: insertDesc score d xs

/-- Stable sort by descending score. -/
def sortDesc (score : Document → Nat) : List Document → List Document
  | [] => []
  | x :: xs => insertDesc score x (sortDesc score xs)

/-- Model of `searcher.search(&query, &TopDocs::with_limit(limit))`: the top
`limit` matching documents in descending score order. -/
def topDocs (q : ParsedQuery) (docs : List Document) (limit : Nat) : List Document :=
  (sortDesc q.score (docs.filter q.isMatch)).take limit

/-- Embeds `search` (src/bin/email_index_reader.rs). The snapshot held by the
reader is `docs` (the live documents `config.index_reader.searcher()` sees);
`parse` is `config.query_parser.parse_query`; `store` is the DynamoDB
client behind `batch_get_items`. `searcher.num_docs()` is the snapshot's
document count and `searcher.search(&query, &Count)` the number of matching
documents. -/
def search (parse : String → Except String ParsedQuery) (docs : List Document)
    (store : List String → List AttributeMap) (request : SearchRequest) :
    Except String SearchResponse :=
  match request.query with
  | none => Except.ok (SearchResponse.mkError "query is required")
  | some queryString =>
    let limit : Nat := request.limit.getD 10
    match parse queryString with
    | Except.ok query =>
      let total := docs.length
      let top := topDocs query docs limit
      let count := (docs.filter query.isMatch).length
      let ids := top.map Document.id
      match batch_get_items store ids with
      | Except.error e => Except.error e
      | Except.ok (emails, _) => Except.ok (SearchResponse.mkSuccess total count emails)
    | Except.error e => Except.ok (SearchResponse.mkError e)

/-! ## Concrete inputs shared by the concrete theorems -/

/-- The attribute image of the spec's example email `e1`. -/
def e1Image : AttributeMap :=
  [("id", AttributeValue.S "e1"), ("timestamp", AttributeValue.S "1"),
   ("subject", AttributeValue.S "hello"), ("body", AttributeValue.S "world"),
   ("to", AttributeValue.Ss ["a@x.com"])]

/-- The document `parse_document` builds from `e1Image`. -/
def e1Doc : Document :=
  { id := "e1", timestamp := 1, subject := "hello", body := "world", «to» := ["a@x.com"] }

/-- An `INSERT` change record carrying `e1Image`. -/
def insertE1 : StreamRecord :=
  { event_name := "INSERT", new_image := e1Image, old_image := [] }

/-- An `INSERT` change record whose `new_image` lacks the `body` field. -/
def badInsert : StreamRecord :=
  { event_name := "INSERT",
    new_image := [("id", AttributeValue.S "e1"), ("timestamp", AttributeValue.S "1"),
                  ("subject", AttributeValue.S "hello")],
    old_image := [] }

/-- A change record with an unknown operation name. -/
def unknownRec : StreamRecord :=
  { event_name := "UNKNOWN", new_image := e1Image, old_image := [] }

/-- A decodable authoritative-store row for identity `s`. -/
def rowFor (s : String) : AttributeMap :=
  [("id", AttributeValue.S s), ("timestamp", AttributeValue.S "0"),
   ("subject", AttributeValue.S "s"), ("body", AttributeValue.S "b"),
   ("to", AttributeValue.Ss [])]

/-- The email `rowFor s` decodes to. -/
def emailFor (s : String) : Email :=
  { id := s, timestamp := 0, subject := "s", body := "b", «to» := [] }

/-- A store whose batch response lists the chunk's rows in the opposite
order from the request. -/
def swapStore : List String → List AttributeMap := fun _ => [rowFor "B", rowFor "A"]

/-- The query model matching every document with score 1, used by concrete
search instances. -/
def allQuery : ParsedQuery := { isMatch := fun _ => true, score := fun _ => 1 }

/-! ## Lemmas: the commit machine -/

theorem runOps_append (s : IndexMachine) (ops₁ ops₂ : List IndexOp) :
    runOps s (ops₁ ++ ops₂) = runOps (runOps s ops₁) ops₂ := by
  simp [runOps, List.foldl_append]

theorem runOps_cons (s : IndexMachine) (op : IndexOp) (ops : List IndexOp) :
    runOps s (op :: ops) = runOps (stepOp s op) ops := by
  simp [runOps]

theorem runOps_committed_of_no_commit :
    ∀ (ops : List IndexOp) (s : IndexMachine), ops.countP IndexOp.isCommit = 0 →
      (runOps s ops).committed = s.committed := by
  intro ops
  induction ops with
  | nil => intro s _; rfl
  | cons op rest ih =>
    intro s h
    rw [List.countP_cons] at h
    rw [runOps_cons]
    cases hb : op.isCommit with
    | false =>
      have h0 : List.countP IndexOp.isCommit rest = 0 := by
        rw [hb] at h
        simpa using h
      rw [ih (stepOp s op) h0]
      cases op with
      | add doc => rfl
      | deleteTerm t => rfl
      | commit => simp [IndexOp.isCommit] at hb
    | true =>
      rw [hb] at h
      simp at h

/-! ## Lemmas: the email writer loop (`index_write`) -/

theorem indexWriteLoop_countP :
    ∀ (records : List StreamRecord) (ops : List IndexOp) (c u d : Nat)
      (ops₀ : List IndexOp) (c₀ u₀ d₀ : Nat),
      email_index_writer.indexWriteLoop records (ops, c, u, d) =
        Except.ok (ops₀, c₀, u₀, d₀) →
      ops₀.countP IndexOp.isCommit = ops.countP IndexOp.isCommit := by
  intro records
  induction records with
  | nil =>
    intro ops c u d ops₀ c₀ u₀ d₀ h
    simp only [email_index_writer.indexWriteLoop, Except.ok.injEq, Prod.mk.injEq] at h
    rw [← h.1]
  | cons r rest ih =>
    intro ops c u d ops₀ c₀ u₀ d₀ h
    simp only [email_index_writer.indexWriteLoop] at h
    split at h
    · rw [ih _ _ _ _ _ _ _ _ h]
      simp [List.countP_append, List.countP_cons, IndexOp.isCommit]
    · rw [ih _ _ _ _ _ _ _ _ h]
      simp [List.countP_append, List.countP_cons, IndexOp.isCommit]
    · rw [ih _ _ _ _ _ _ _ _ h]
      simp [List.countP_append, List.countP_cons, IndexOp.isCommit]
    · exact ih _ _ _ _ _ _ _ _ h
    · exact Except.noConfusion h

theorem indexWriteLoop_working :
    ∀ (records : List StreamRecord) (ops : List IndexOp) (c u d : Nat)
      (ops₀ : List IndexOp) (c₀ u₀ d₀ : Nat),
      email_index_writer.indexWriteLoop records (ops, c, u, d) =
        Except.ok (ops₀, c₀, u₀, d₀) →
      ∀ s : IndexMachine,
        (runOps s ops₀).working = records.foldl recordEffect (runOps s ops).working := by
  intro records
  induction records with
  | nil =>
    intro ops c u d ops₀ c₀ u₀ d₀ h s
    simp only [email_index_writer.indexWriteLoop, Except.ok.injEq, Prod.mk.injEq] at h
    rw [← h.1]
    rfl
  | cons r rest ih =>
    intro ops c u d ops₀ c₀ u₀ d₀ h s
    simp only [email_index_writer.indexWriteLoop] at h
    rw [List.foldl_cons]
    split at h
    case _ doc heq =>
      rw [ih _ _ _ _ _ _ _ _ h s, runOps_append]
      simp [recordEffect, heq, runOps, stepOp]
    case _ doc heq =>
      rw [ih _ _ _ _ _ _ _ _ h s, runOps_append]
      simp [recordEffect, heq, runOps, stepOp]
    case _ doc heq =>
      rw [ih _ _ _ _ _ _ _ _ h s, runOps_append]
      simp [recordEffect, heq, runOps, stepOp]
    case _ heq =>
      rw [ih _ _ _ _ _ _ _ _ h s]
      simp [recordEffect, heq]
    case _ e heq => exact Except.noConfusion h

theorem indexWriteLoop_counters :
    ∀ (records : List StreamRecord) (ops : List IndexOp) (c u d : Nat)
      (ops₀ : List IndexOp) (c₀ u₀ d₀ : Nat),
      email_index_writer.indexWriteLoop records (ops, c, u, d) =
        Except.ok (ops₀, c₀, u₀, d₀) →
      c₀ + u₀ + d₀ ≤ c + u + d + records.length := by
  intro records
  induction records with
  | nil =>
    intro ops c u d ops₀ c₀ u₀ d₀ h
    simp only [email_index_writer.indexWriteLoop, Except.ok.injEq, Prod.mk.injEq] at h
    omega
  | cons r rest ih =>
    intro ops c u d ops₀ c₀ u₀ d₀ h
    simp only [email_index_writer.indexWriteLoop] at h
    split at h
    · have := ih _ _ _ _ _ _ _ _ h; simp; omega
    · have := ih _ _ _ _ _ _ _ _ h; simp; omega
    · have := ih _ _ _ _ _ _ _ _ h; simp; omega
    · have := ih _ _ _ _ _ _ _ _ h; simp; omega
    · exact Except.noConfusion h

theorem indexWriteLoop_skip_mid (r : StreamRecord)
    (hr : email_index_writer.classifyRecord r = email_index_writer.RecordAction.skip) :
    ∀ (l₁ l₂ : List StreamRecord) (acc : List IndexOp × Nat × Nat × Nat),
      email_index_writer.indexWriteLoop (l₁ ++ r :: l₂) acc =
        email_index_writer.indexWriteLoop (l₁ ++ l₂) acc := by
  intro l₁
  induction l₁ with
  | nil =>
    intro l₂ acc
    obtain ⟨ops, c, u, d⟩ := acc
    simp only [List.nil_append, email_index_writer.indexWriteLoop, hr]
  | cons a l₁ ih =>
    intro l₂ acc
    obtain ⟨ops, c, u, d⟩ := acc
    simp only [List.cons_append, email_index_writer.indexWriteLoop]
    cases hca : email_index_writer.classifyRecord a <;> simp only [hca] <;>
      first
        | rfl
        | exact ih l₂ _

/-- Inversion of `index_write` success: the loop succeeded from the zero
accumulator and the trace is its staged operations plus the final commit. -/
theorem index_write_inv (records : List StreamRecord) (report : ApplyReport)
    (ops : List IndexOp)
    (h : email_index_writer.index_write records = Except.ok (report, ops)) :
    ∃ ops₀ c u d,
      email_index_writer.indexWriteLoop records ([], 0, 0, 0) = Except.ok (ops₀, c, u, d) ∧
      ops = ops₀ ++ [IndexOp.commit] ∧
      report = { total := records.length, created := c, updated := u, deleted := d,
                 skipped := records.length - c - u - d } := by
  unfold email_index_writer.index_write at h
  cases heq : email_index_writer.indexWriteLoop records ([], 0, 0, 0) with
  | error e => rw [heq] at h; exact Except.noConfusion h
  | ok acc =>
    obtain ⟨ops₀, c, u, d⟩ := acc
    rw [heq] at h
    simp only [Except.ok.injEq, Prod.mk.injEq] at h
    exact ⟨ops₀, c, u, d, rfl, h.2.symm, h.1.symm⟩

theorem index_write_of_loop_ok (records : List StreamRecord) (ops₀ : List IndexOp)
    (c u d : Nat)
    (h : email_index_writer.indexWriteLoop records ([], 0, 0, 0) = Except.ok (ops₀, c, u, d)) :
    email_index_writer.index_write records =
      Except.ok ({ total := records.length, created := c, updated := u, deleted := d,
                   skipped := records.length - c - u - d },
                 ops₀ ++ [IndexOp.commit]) := by
  unfold email_index_writer.index_write
  rw [h]

theorem index_write_of_loop_error (records : List StreamRecord) (e : String)
    (h : email_index_writer.indexWriteLoop records ([], 0, 0, 0) = Except.error e) :
    email_index_writer.index_write records = Except.error e := by
  unfold email_index_writer.index_write
  rw [h]

/-! ## Lemmas: the older writer loop (`func`) -/

theorem funcLoop_skip_mid (r : StreamRecord)
    (hr : index_writer.classifyRecord r = index_writer.PkAction.skip) :
    ∀ (l₁ l₂ : List StreamRecord) (acc : List index_writer.PkIndexOp × Nat × Nat × Nat),
      index_writer.funcLoop (l₁ ++ r :: l₂) acc = index_writer.funcLoop (l₁ ++ l₂) acc := by
  intro l₁
  induction l₁ with
  | nil =>
    intro l₂ acc
    obtain ⟨ops, c, u, d⟩ := acc
    simp only [List.nil_append, index_writer.funcLoop, hr]
  | cons a l₁ ih =>
    intro l₂ acc
    obtain ⟨ops, c, u, d⟩ := acc
    simp only [List.cons_append, index_writer.funcLoop]
    cases hca : index_writer.classifyRecord a <;> simp only [hca] <;> exact ih l₂ _

theorem funcLoop_counters :
    ∀ (records : List StreamRecord) (ops : List index_writer.PkIndexOp) (c u d : Nat)
      (ops₀ : List index_writer.PkIndexOp) (c₀ u₀ d₀ : Nat),
      index_writer.funcLoop records (ops, c, u, d) = (ops₀, c₀, u₀, d₀) →
      c₀ + u₀ + d₀ ≤ c + u + d + records.length := by
  intro records
  induction records with
  | nil =>
    intro ops c u d ops₀ c₀ u₀ d₀ h
    simp only [index_writer.funcLoop, Prod.mk.injEq] at h
    omega
  | cons r rest ih =>
    intro ops c u d ops₀ c₀ u₀ d₀ h
    simp only [index_writer.funcLoop] at h
    split at h
    · have := ih _ _ _ _ _ _ _ _ h; simp; omega
    · have := ih _ _ _ _ _ _ _ _ h; simp; omega
    · have := ih _ _ _ _ _ _ _ _ h; simp; omega
    · have := ih _ _ _ _ _ _ _ _ h; simp; omega

theorem func_of_loop (records : List StreamRecord) (ops₀ : List index_writer.PkIndexOp)
    (c u d : Nat)
    (h : index_writer.funcLoop records ([], 0, 0, 0) = (ops₀, c, u, d)) :
    index_writer.func records =
      ({ total := records.length, created := c, updated := u, deleted := d,
         skipped := records.length - c - u - d },
       ops₀ ++ [index_writer.PkIndexOp.commit]) := by
  unfold index_writer.func
  rw [h]

/-! ## C1 -/

/-- C1: refuted on the code — `INSERT` stages a bare `add_document` with no
preceding `delete_term`, so replaying the same `Insert` record in a second
batch leaves two documents carrying the identity `"e1"`, not one document as
the claim requires; the replay is not treated as delete-then-add. -/
theorem C1_insert_replay_duplicates :
    applyBatchToDocs [] [insertE1] = Except.ok [e1Doc] ∧
    applyBatchToDocs [e1Doc] [insertE1] = Except.ok [e1Doc, e1Doc] ∧
    ([e1Doc, e1Doc].filter (fun d => d.id = "e1")).length = 2 ∧
    ([e1Doc].filter (fun d => d.id = "e1")).length = 1 :=
  ⟨rfl, rfl, rfl, rfl⟩

/-! ## C2 -/

/-- C2: refuted on src/bin/email_index_writer.rs — a batch holding one
`INSERT` record whose `new_image` lacks the `body` field makes `index_write`
return the decode error (the `?` on `parse_document` aborts the batch before
the commit), instead of counting the record as skipped and continuing. -/
theorem C2_counterexample :
    email_index_writer.index_write [badInsert] = Except.error "body missing" :=
  rfl

/-- C2 (amended): in `func` (src/bin/index_writer.rs) a change record whose
required image fails to decode is skipped and the batch continues — the
staged operations and the created/updated/deleted counters are exactly those
of the batch without that record, while `total` and the derived `skipped`
counter each grow by one. -/
theorem C2_decode_failure_skipped (r : StreamRecord)
    (hr : ((r.event_name = "INSERT" ∨ r.event_name = "MODIFY") ∧
             index_writer.parse_document r.new_image = none) ∨
          (r.event_name = "REMOVE" ∧ index_writer.parse_document r.old_image = none))
    (l₁ l₂ : List StreamRecord) :
    (index_writer.func (l₁ ++ r :: l₂)).2 = (index_writer.func (l₁ ++ l₂)).2 ∧
    (index_writer.func (l₁ ++ r :: l₂)).1.created = (index_writer.func (l₁ ++ l₂)).1.created ∧
    (index_writer.func (l₁ ++ r :: l₂)).1.updated = (index_writer.func (l₁ ++ l₂)).1.updated ∧
    (index_writer.func (l₁ ++ r :: l₂)).1.deleted = (index_writer.func (l₁ ++ l₂)).1.deleted ∧
    (index_writer.func (l₁ ++ r :: l₂)).1.total = (index_writer.func (l₁ ++ l₂)).1.total + 1 ∧
    (index_writer.func (l₁ ++ r :: l₂)).1.skipped =
      (index_writer.func (l₁ ++ l₂)).1.skipped + 1 := by
  have hskip : index_writer.classifyRecord r = index_writer.PkAction.skip := by
    rcases hr with ⟨hname | hname, hparse⟩ | ⟨hname, hparse⟩ <;>
      simp [index_writer.classifyRecord, hname, hparse]
  cases hq : index_writer.funcLoop (l₁ ++ l₂) ([], 0, 0, 0) with
  | mk ops₀ rest =>
    obtain ⟨c, u, d⟩ := rest
    have hq' : index_writer.funcLoop (l₁ ++ r :: l₂) ([], 0, 0, 0) = (ops₀, c, u, d) := by
      rw [funcLoop_skip_mid r hskip l₁ l₂, hq]
    have hbound := funcLoop_counters (l₁ ++ l₂) [] 0 0 0 ops₀ c u d hq
    rw [func_of_loop _ _ _ _ _ hq, func_of_loop _ _ _ _ _ hq']
    have hlen : (l₁ ++ r :: l₂).length = (l₁ ++ l₂).length + 1 := by
      simp only [List.length_append, List.length_cons]
      omega
    refine ⟨rfl, rfl, rfl, rfl, hlen, ?_⟩
    simp only [hlen]
    simp only [List.length_append] at hbound ⊢
    omega

/-- Witness for `C2_decode_failure_skipped`: the empty-image `INSERT`
record, as the only record of its batch. -/
theorem C2_decode_failure_skipped_witness :
    (index_writer.func ([] ++ { event_name := "INSERT", new_image := [],
                                old_image := [] } :: [])).2 =
      (index_writer.func ([] ++ [])).2 ∧
    (index_writer.func ([] ++ { event_name := "INSERT", new_image := [],
                                old_image := [] } :: [])).1.created =
      (index_writer.func ([] ++ [])).1.created ∧
    (index_writer.func ([] ++ { event_name := "INSERT", new_image := [],
                                old_image := [] } :: [])).1.updated =
      (index_writer.func ([] ++ [])).1.updated ∧
    (index_writer.func ([] ++ { event_name := "INSERT", new_image := [],
                                old_image := [] } :: [])).1.deleted =
      (index_writer.func ([] ++ [])).1.deleted ∧
    (index_writer.func ([] ++ { event_name := "INSERT", new_image := [],
                                old_image := [] } :: [])).1.total =
      (index_writer.func ([] ++ [])).1.total + 1 ∧
    (index_writer.func ([] ++ { event_name := "INSERT", new_image := [],
                                old_image := [] } :: [])).1.skipped =
      (index_writer.func ([] ++ [])).1.skipped + 1 :=
  C2_decode_failure_skipped
    { event_name := "INSERT", new_image := [], old_image := [] }
    (Or.inl ⟨Or.inl rfl, rfl⟩) [] []

/-! ## C4 -/

/-- C4: every successful `index_write` stages all per-record operations
first and ends the trace with exactly one commit, which is its last
operation; running the trace against any committed snapshot leaves every
proper prefix's committed view unchanged (a reader before the commit sees
none of the batch) and the commit installs the full batch effect (a reader
after it sees all of it). -/
theorem C4_single_commit_atomicity (records : List StreamRecord) (docs : List Document)
    (report : ApplyReport) (ops : List IndexOp)
    (h : email_index_writer.index_write records = Except.ok (report, ops)) :
    ops.countP IndexOp.isCommit = 1 ∧
    ops.getLast? = some IndexOp.commit ∧
    (∀ k, k < ops.length → (runOps (initMachine docs) (ops.take k)).committed = docs) ∧
    (runOps (initMachine docs) ops).committed = records.foldl recordEffect docs := by
  obtain ⟨ops₀, c, u, d, hloop, hops, _⟩ := index_write_inv records report ops h
  have h0 : ops₀.countP IndexOp.isCommit = 0 := by
    simpa using indexWriteLoop_countP records [] 0 0 0 ops₀ c u d hloop
  subst hops
  refine ⟨?_, ?_, ?_, ?_⟩
  · rw [List.countP_append, h0]
    simp [List.countP_cons, IndexOp.isCommit]
  · exact List.getLast?_concat _
  · intro k hk
    have hk' : k ≤ ops₀.length := by
      simp only [List.length_append, List.length_cons, List.length_nil] at hk
      omega
    rw [List.take_append_of_le_length hk']
    have hsub : (ops₀.take k).countP IndexOp.isCommit = 0 := by
      have := List.Sublist.countP_le IndexOp.isCommit (List.take_sublist k ops₀)
      omega
    exact runOps_committed_of_no_commit _ _ hsub
  · rw [runOps_append]
    have hw := indexWriteLoop_working records [] 0 0 0 ops₀ c u d hloop (initMachine docs)
    have hinit : (runOps (initMachine docs) []).working = docs := rfl
    rw [hinit] at hw
    show (stepOp (runOps (initMachine docs) ops₀) IndexOp.commit).committed = _
    rw [show ∀ s : IndexMachine, (stepOp s IndexOp.commit).committed = s.working
          from fun s => rfl]
    exact hw

/-- Witness for `C4_single_commit_atomicity`: the single-`INSERT` batch of
`e1`, applied to the empty committed snapshot. -/
theorem C4_single_commit_atomicity_witness :
    email_index_writer.index_write [insertE1] =
      Except.ok ({ total := 1, created := 1, updated := 0, deleted := 0, skipped := 0 },
                 [IndexOp.add e1Doc, IndexOp.commit]) ∧
    ([IndexOp.add e1Doc, IndexOp.commit].countP IndexOp.isCommit = 1 ∧
     [IndexOp.add e1Doc, IndexOp.commit].getLast? = some IndexOp.commit ∧
     (∀ k, k < [IndexOp.add e1Doc, IndexOp.commit].length →
        (runOps (initMachine []) ([IndexOp.add e1Doc, IndexOp.commit].take k)).committed = []) ∧
     (runOps (initMachine []) [IndexOp.add e1Doc, IndexOp.commit]).committed =
       [insertE1].foldl recordEffect []) :=
  ⟨rfl, C4_single_commit_atomicity [insertE1] [] _ _ rfl⟩

/-! ## C10 -/

/-- C10: a change record with an unknown operation name contributes no
staged operation and no created/updated/deleted count — `index_write` on a
batch containing it errors, or succeeds with exactly the trace of the batch
without it — and the record shows up only in `total` and the derived
`skipped = total - created - updated - deleted`. -/
theorem C10_unknown_event_frame (r : StreamRecord)
    (h1 : r.event_name ≠ "INSERT") (h2 : r.event_name ≠ "MODIFY")
    (h3 : r.event_name ≠ "REMOVE") (l₁ l₂ : List StreamRecord) :
    (∀ e, email_index_writer.index_write (l₁ ++ l₂) = Except.error e ↔
          email_index_writer.index_write (l₁ ++ r :: l₂) = Except.error e) ∧
    (∀ report ops, email_index_writer.index_write (l₁ ++ l₂) = Except.ok (report, ops) →
       email_index_writer.index_write (l₁ ++ r :: l₂) =
         Except.ok ({ total := report.total + 1, created := report.created,
                      updated := report.updated, deleted := report.deleted,
                      skipped := report.skipped + 1 }, ops)) := by
  have hskip : email_index_writer.classifyRecord r = email_index_writer.RecordAction.skip := by
    simp [email_index_writer.classifyRecord, h1, h2, h3]
  have hloop := indexWriteLoop_skip_mid r hskip l₁ l₂ ([], 0, 0, 0)
  cases hq : email_index_writer.indexWriteLoop (l₁ ++ l₂) ([], 0, 0, 0) with
  | error e' =>
    have he : email_index_writer.index_write (l₁ ++ l₂) = Except.error e' :=
      index_write_of_loop_error _ _ hq
    have he' : email_index_writer.index_write (l₁ ++ r :: l₂) = Except.error e' :=
      index_write_of_loop_error _ _ (by rw [hloop, hq])
    constructor
    · intro e
      rw [he, he']
    · intro report ops hok
      rw [he] at hok
      exact Except.noConfusion hok
  | ok acc =>
    obtain ⟨ops₀, c, u, d⟩ := acc
    have hone : email_index_writer.index_write (l₁ ++ l₂) =
        Except.ok ({ total := (l₁ ++ l₂).length, created := c, updated := u, deleted := d,
                     skipped := (l₁ ++ l₂).length - c - u - d },
                   ops₀ ++ [IndexOp.commit]) :=
      index_write_of_loop_ok _ _ _ _ _ hq
    have htwo : email_index_writer.index_write (l₁ ++ r :: l₂) =
        Except.ok ({ total := (l₁ ++ r :: l₂).length, created := c, updated := u, deleted := d,
                     skipped := (l₁ ++ r :: l₂).length - c - u - d },
                   ops₀ ++ [IndexOp.commit]) :=
      index_write_of_loop_ok _ _ _ _ _ (by rw [hloop, hq])
    have hbound := indexWriteLoop_counters (l₁ ++ l₂) [] 0 0 0 ops₀ c u d hq
    constructor
    · intro e
      rw [hone, htwo]
      constructor <;> intro hfalse <;> exact Except.noConfusion hfalse
    · intro report ops hok
      rw [hone] at hok
      simp only [Except.ok.injEq, Prod.mk.injEq] at hok
      obtain ⟨hrep, hops⟩ := hok
      subst hops
      have ht : report.total = (l₁ ++ l₂).length := by rw [← hrep]
      have hc : report.created = c := by rw [← hrep]
      have hu : report.updated = u := by rw [← hrep]
      have hd : report.deleted = d := by rw [← hrep]
      have hs : report.skipped = (l₁ ++ l₂).length - c - u - d := by rw [← hrep]
      have hlen : (l₁ ++ r :: l₂).length = (l₁ ++ l₂).length + 1 := by
        simp only [List.length_append, List.length_cons]
        omega
      have hskip2 : (l₁ ++ r :: l₂).length - c - u - d =
          (l₁ ++ l₂).length - c - u - d + 1 := by
        simp only [List.length_append, List.length_cons] at hbound ⊢
        omega
      have hrec : ({ total := (l₁ ++ r :: l₂).length, created := c, updated := u,
                     deleted := d,
                     skipped := (l₁ ++ r :: l₂).length - c - u - d } : ApplyReport) =
          { total := report.total + 1, created := report.created,
            updated := report.updated, deleted := report.deleted,
            skipped := report.skipped + 1 } := by
        rw [hskip2, hlen, ht, hc, hu, hd, hs]
      rw [htwo]
      exact congrArg (fun rep => Except.ok (rep, ops₀ ++ [IndexOp.commit])) hrec

/-! ## Lemmas: chunking -/

theorem chunksGo_zero (n : Nat) (l : List α) : chunksGo n 0 l = [] := by cases l <;> rfl

theorem chunksGo_nil (n : Nat) : ∀ fuel : Nat, chunksGo (α := α) n fuel [] = [] := by
  intro fuel
  cases fuel <;> rfl

theorem chunksGo_congr (n : Nat) (hn : 0 < n) :
    ∀ (fuel₁ fuel₂ : Nat) (l : List α), l.length ≤ fuel₁ → l.length ≤ fuel₂ →
      chunksGo n fuel₁ l = chunksGo n fuel₂ l := by
  intro fuel₁
  induction fuel₁ with
  | zero =>
    intro fuel₂ l h1 _
    have hnil : l = [] := List.eq_nil_of_length_eq_zero (Nat.le_zero.mp h1)
    subst hnil
    rw [chunksGo_zero, chunksGo_nil]
  | succ f ih =>
    intro fuel₂ l h1 h2
    cases l with
    | nil => rw [chunksGo_nil, chunksGo_nil]
    | cons x xs =>
      cases fuel₂ with
      | zero => simp at h2
      | succ f₂ =>
        show (x :: xs).take n :: chunksGo n f ((x :: xs).drop n) =
          (x :: xs).take n :: chunksGo n f₂ ((x :: xs).drop n)
        congr 1
        apply ih
        · rw [List.length_drop]
          simp only [List.length_cons] at h1 ⊢
          omega
        · rw [List.length_drop]
          simp only [List.length_cons] at h2 ⊢
          omega

theorem chunksGo_join (n : Nat) (hn : 0 < n) :
    ∀ (fuel : Nat) (l : List α), l.length ≤ fuel → (chunksGo n fuel l).flatten = l := by
  intro fuel
  induction fuel with
  | zero =>
    intro l h
    have hnil : l = [] := List.eq_nil_of_length_eq_zero (Nat.le_zero.mp h)
    subst hnil
    rfl
  | succ f ih =>
    intro l h
    cases l with
    | nil => rfl
    | cons x xs =>
      show ((x :: xs).take n :: chunksGo n f ((x :: xs).drop n)).flatten = x :: xs
      rw [List.flatten_cons]
      rw [ih _ (by
        rw [List.length_drop]
        simp only [List.length_cons] at h ⊢
        omega)]
      exact List.take_append_drop n (x :: xs)

theorem chunksList_join (n : Nat) (hn : 0 < n) (l : List α) :
    (chunksList n l).flatten = l :=
  chunksGo_join n hn l.length l le_rfl

theorem chunksGo_length100 :
    ∀ (fuel : Nat) (l : List α), l.length ≤ fuel →
      (chunksGo 100 fuel l).length = (l.length + 99) / 100 := by
  intro fuel
  induction fuel with
  | zero =>
    intro l h
    have hnil : l = [] := List.eq_nil_of_length_eq_zero (Nat.le_zero.mp h)
    subst hnil
    rw [chunksGo_zero]
    simp
  | succ f ih =>
    intro l h
    cases l with
    | nil =>
      rw [chunksGo_nil]
      simp
    | cons x xs =>
      show ((x :: xs).take 100 :: chunksGo 100 f ((x :: xs).drop 100)).length = _
      rw [List.length_cons, ih _ (by
        rw [List.length_drop]
        simp only [List.length_cons] at h ⊢
        omega)]
      rw [List.length_drop]
      simp only [List.length_cons]
      omega

theorem chunksGo_getD100 :
    ∀ (fuel : Nat) (l : List α) (i : Nat), l.length ≤ fuel →
      i + 1 < (chunksGo 100 fuel l).length →
      ((chunksGo 100 fuel l).getD i []).length = 100 := by
  intro fuel
  induction fuel with
  | zero =>
    intro l i _ hi
    rw [chunksGo_zero] at hi
    simp at hi
  | succ f ih =>
    intro l i h hi
    cases l with
    | nil =>
      rw [chunksGo_nil] at hi
      simp at hi
    | cons x xs =>
      have hcons : chunksGo 100 (f + 1) (x :: xs) =
          (x :: xs).take 100 :: chunksGo 100 f ((x :: xs).drop 100) := rfl
      cases i with
      | zero =>
        have hrest : chunksGo 100 f ((x :: xs).drop 100) ≠ [] := by
          intro hnil
          rw [hcons, hnil] at hi
          simp at hi
        have hdrop : (x :: xs).drop 100 ≠ [] := by
          intro hnil
          exact hrest (by rw [hnil, chunksGo_nil])
        have hlen : 100 < (x :: xs).length := by
          by_contra hle
          push_neg at hle
          exact hdrop (List.eq_nil_of_length_eq_zero (by rw [List.length_drop]; omega))
        show ((x :: xs).take 100).length = 100
        rw [List.length_take]
        omega
      | succ j =>
        show ((chunksGo 100 f ((x :: xs).drop 100)).getD j []).length = 100
        apply ih
        · rw [List.length_drop]
          simp only [List.length_cons] at h ⊢
          omega
        · rw [hcons, List.length_cons] at hi
          omega

theorem chunksGo_mem100 :
    ∀ (fuel : Nat) (l : List α) (c : List α), l.length ≤ fuel →
      c ∈ chunksGo 100 fuel l → 0 < c.length ∧ c.length ≤ 100 := by
  intro fuel
  induction fuel with
  | zero =>
    intro l c _ hc
    rw [chunksGo_zero] at hc
    simp at hc
  | succ f ih =>
    intro l c h hc
    cases l with
    | nil =>
      rw [chunksGo_nil] at hc
      simp at hc
    | cons x xs =>
      have hcons : chunksGo 100 (f + 1) (x :: xs) =
          (x :: xs).take 100 :: chunksGo 100 f ((x :: xs).drop 100) := rfl
      rw [hcons, List.mem_cons] at hc
      cases hc with
      | inl hc =>
        subst hc
        rw [List.length_take]
        simp only [List.length_cons]
        omega
      | inr hc =>
        apply ih _ _ _ hc
        rw [List.length_drop]
        simp only [List.length_cons] at h ⊢
        omega

/-! ## Lemmas: hydration -/

theorem decodeRows_length :
    ∀ (rows : List AttributeMap) (emails : List Email),
      decodeRows rows = Except.ok emails → emails.length = rows.length := by
  intro rows
  induction rows with
  | nil =>
    intro emails h
    simp only [decodeRows, Except.ok.injEq] at h
    rw [← h]
    rfl
  | cons a rest ih =>
    intro emails h
    simp only [decodeRows] at h
    cases h1 : Email.fromAttributes a with
    | error e => rw [h1] at h; exact Except.noConfusion h
    | ok email =>
      rw [h1] at h
      cases h2 : decodeRows rest with
      | error e => rw [h2] at h; exact Except.noConfusion h
      | ok more =>
        rw [h2] at h
        simp only [Except.ok.injEq] at h
        rw [← h, List.length_cons, ih more h2, List.length_cons]

theorem hydrateChunks_ok (store : List String → List AttributeMap) :
    ∀ (cs : List (List String)) (es : List Email) (k : Nat),
      (∀ c ∈ cs, (store c).length ≤ c.length) →
      hydrateChunks store cs = Except.ok (es, k) →
      k = cs.length ∧ es.length ≤ cs.flatten.length := by
  intro cs
  induction cs with
  | nil =>
    intro es k _ h
    simp only [hydrateChunks, Except.ok.injEq, Prod.mk.injEq] at h
    obtain ⟨h1, h2⟩ := h
    exact ⟨h2.symm, by rw [← h1]; simp⟩
  | cons c rest ih =>
    intro es k hstore h
    simp only [hydrateChunks] at h
    cases hd : decodeRows (store c) with
    | error e => rw [hd] at h; exact Except.noConfusion h
    | ok chunkEmails =>
      rw [hd] at h
      cases hr : hydrateChunks store rest with
      | error e => rw [hr] at h; exact Except.noConfusion h
      | ok pair =>
        obtain ⟨more, k'⟩ := pair
        rw [hr] at h
        simp only [Except.ok.injEq, Prod.mk.injEq] at h
        obtain ⟨h1, h2⟩ := h
        have hrest := ih more k' (fun x hx => hstore x (List.mem_cons_of_mem c hx)) hr
        have hchunk : chunkEmails.length = (store c).length := decodeRows_length _ _ hd
        have hc : (store c).length ≤ c.length := hstore c (List.mem_cons_self c rest)
        constructor
        · rw [← h2, hrest.1, List.length_cons]
        · rw [← h1, List.flatten_cons]
          simp only [List.length_append]
          have := hrest.2
          omega

theorem hydrate_ordered (store : List String → List AttributeMap)
    (pres : String → Bool) (emailOf : String → Email) :
    ∀ cs : List (List String),
      (∀ c ∈ cs, decodeRows (store c) = Except.ok ((c.filter pres).map emailOf)) →
      hydrateChunks store cs =
        Except.ok ((cs.flatten.filter pres).map emailOf, cs.length) := by
  intro cs
  induction cs with
  | nil => intro _; rfl
  | cons c rest ih =>
    intro hstore
    simp only [hydrateChunks]
    rw [hstore c (List.mem_cons_self c rest)]
    rw [ih (fun x hx => hstore x (List.mem_cons_of_mem c hx))]
    simp [List.flatten_cons, List.filter_append, List.map_append]

/-! ## C6 -/

/-- C6: a successful hydration of `n` identities issues exactly
`⌈n / 100⌉` batched lookups, every chunk except possibly the last carries
exactly 100 identities and every chunk carries between 1 and 100, and when
the store returns at most one row per requested key the merged result has
length at most `n` (identities without a row are simply absent). -/
theorem C6_chunked_hydration (store : List String → List AttributeMap)
    (ids : List String) (es : List Email) (reqs : Nat)
    (hstore : ∀ keys, (store keys).length ≤ keys.length)
    (h : batch_get_items store ids = Except.ok (es, reqs)) :
    reqs = (ids.length + 99) / 100 ∧
    es.length ≤ ids.length ∧
    (∀ i, i + 1 < (chunksList 100 ids).length →
       ((chunksList 100 ids).getD i []).length = 100) ∧
    (∀ c ∈ chunksList 100 ids, 0 < c.length ∧ c.length ≤ 100) := by
  obtain ⟨hk, hlen⟩ :=
    hydrateChunks_ok store (chunksList 100 ids) es reqs (fun c _ => hstore c) h
  refine ⟨?_, ?_, ?_, ?_⟩
  · rw [hk]
    exact chunksGo_length100 ids.length ids le_rfl
  · calc es.length ≤ (chunksList 100 ids).flatten.length := hlen
      _ = ids.length := by rw [chunksList_join 100 (by omega) ids]
  · intro i hi
    exact chunksGo_getD100 ids.length ids i le_rfl hi
  · intro c hc
    exact chunksGo_mem100 ids.length ids c le_rfl hc

set_option maxRecDepth 10000 in
/-- Witness for `C6_chunked_hydration`: 250 identities against a store
returning no rows — three lookups of 100, 100 and 50. -/
theorem C6_chunked_hydration_witness :
    batch_get_items (fun _ => ([] : List AttributeMap)) (List.replicate 250 "x") =
      Except.ok ([], 3) ∧
    (3 = ((List.replicate 250 "x").length + 99) / 100 ∧
     ([] : List Email).length ≤ (List.replicate 250 "x").length ∧
     (∀ i, i + 1 < (chunksList 100 (List.replicate 250 "x")).length →
        ((chunksList 100 (List.replicate 250 "x")).getD i []).length = 100) ∧
     (∀ c ∈ chunksList 100 (List.replicate 250 "x"), 0 < c.length ∧ c.length ≤ 100)) ∧
    (chunksList 100 (List.replicate 250 "x")).map List.length = [100, 100, 50] :=
  ⟨rfl,
   C6_chunked_hydration (fun _ => []) (List.replicate 250 "x") [] 3
     (fun _ => Nat.zero_le _) rfl,
   rfl⟩

/-! ## C3 -/

/-- C3: refuted on the code — `batch_get_items` pushes hydrated records in
the order the store's response lists them and never re-sorts by the
requested identities, so a store that returns the chunk `["A", "B"]` as
`[B, A]` makes the hydrated sequence come back as `[B, A]`, not in rank
order. -/
theorem C3_counterexample :
    batch_get_items swapStore ["A", "B"] =
      Except.ok ([emailFor "B", emailFor "A"], 1) ∧
    [emailFor "B", emailFor "A"].map Email.id = ["B", "A"] ∧
    ["B", "A"] ≠ ["A", "B"] :=
  ⟨rfl, rfl, by decide⟩

/-- C3 (amended): the hydrator walks the chunks in input order and keeps
each chunk's rows in the store's response order; when every chunk's
response lists exactly the present identities in the requested order, the
hydrated sequence preserves the input (rank) order, identities without a
row simply absent. -/
theorem C3_order_preservation (store : List String → List AttributeMap)
    (pres : String → Bool) (emailOf : String → Email) (ids : List String)
    (hstore : ∀ c ∈ chunksList 100 ids,
       decodeRows (store c) = Except.ok ((c.filter pres).map emailOf)) :
    batch_get_items store ids =
      Except.ok ((ids.filter pres).map emailOf, (chunksList 100 ids).length) := by
  unfold batch_get_items
  rw [hydrate_ordered store pres emailOf (chunksList 100 ids) hstore]
  rw [chunksList_join 100 (by omega) ids]

/-- Witness for `C3_order_preservation`: two identities, a store answering
both in request order. -/
theorem C3_order_preservation_witness :
    batch_get_items (fun keys => keys.map rowFor) ["A", "B"] =
      Except.ok (((["A", "B"].filter (fun _ => true)).map emailFor),
                 (chunksList 100 ["A", "B"]).length) :=
  C3_order_preservation (fun keys => keys.map rowFor) (fun _ => true) emailFor
    ["A", "B"]
    (by
      intro c hc
      have hch : chunksList 100 ["A", "B"] = [["A", "B"]] := rfl
      rw [hch] at hc
      have hce : c = ["A", "B"] := by simpa using hc
      subst hce
      rfl)

/-! ## C9 -/

/-- C9: refuted on the code — `parse_int_64` is not total on fields present
with the compatible (`S`) variant: the same field that decodes when its
content is `"7"` fails when its content is `"abc"`, so failure is not
confined to absent or wrongly-tagged fields. -/
theorem C9_counterexample :
    AttributeHelper.parse_int_64 [("timestamp", AttributeValue.S "7")] "timestamp" =
      Except.ok 7 ∧
    AttributeHelper.parse_int_64 [("timestamp", AttributeValue.S "abc")] "timestamp" =
      Except.error "invalid digit found in string" :=
  ⟨rfl, rfl⟩

/-- C9 (amended): the codec functions are pure functions of the map and the
field name; `parse_string` and `parse_string_array` succeed exactly when the
field is present with the compatible variant, while `parse_int_64`
additionally requires the string content to parse as a signed 64-bit
integer. -/
theorem C9_codec_characterization (m : AttributeMap) (name : String) :
    (∀ v : String, AttributeHelper.parse_string m name = Except.ok v ↔
       m.get name = some (AttributeValue.S v)) ∧
    (∀ vs : List String, AttributeHelper.parse_string_array m name = Except.ok vs ↔
       m.get name = some (AttributeValue.Ss vs)) ∧
    (∀ k : Int, AttributeHelper.parse_int_64 m name = Except.ok k ↔
       ∃ s, m.get name = some (AttributeValue.S s) ∧ parseI64 s = some k) := by
  refine ⟨?_, ?_, ?_⟩
  · intro v
    unfold AttributeHelper.parse_string
    cases hm : m.get name with
    | none => simp
    | some a => cases a <;> simp
  · intro vs
    unfold AttributeHelper.parse_string_array
    cases hm : m.get name with
    | none => simp
    | some a => cases a <;> simp
  · intro k
    unfold AttributeHelper.parse_int_64
    cases hm : m.get name with
    | none => simp
    | some a =>
      cases a with
      | S s =>
        cases hp : parseI64 s with
        | none => simp [hp]
        | some n => simp [hp]
      | Ss vs => simp
      | N v => simp
      | other => simp

/-! ## C7 -/

/-- C7: a request whose `query` field is absent yields the synchronous
`"query is required"` error envelope — the result does not depend on the
snapshot, and the success fields (`emails` included) stay unpopulated. -/
theorem C7_missing_query (parse : String → Except String ParsedQuery)
    (docs docs₂ : List Document) (store : List String → List AttributeMap)
    (request : SearchRequest) (h : request.query = none) :
    search parse docs store request =
      Except.ok (SearchResponse.mkError "query is required") ∧
    search parse docs store request = search parse docs₂ store request ∧
    (SearchResponse.mkError "query is required").emails = none ∧
    (SearchResponse.mkError "query is required").error = some "query is required" := by
  obtain ⟨oq, olim⟩ := request
  have hq : oq = none := h
  subst hq
  exact ⟨rfl, rfl, rfl, rfl⟩

/-- Witness for `C7_missing_query`: the spec's example request
`{query: None}` on two different snapshots. -/
theorem C7_missing_query_witness :
    search (fun _ => Except.error "unused") [e1Doc] (fun _ => [])
        { query := none, limit := some 5 } =
      Except.ok (SearchResponse.mkError "query is required") ∧
    search (fun _ => Except.error "unused") [e1Doc] (fun _ => [])
        { query := none, limit := some 5 } =
      search (fun _ => Except.error "unused") [] (fun _ => [])
        { query := none, limit := some 5 } ∧
    (SearchResponse.mkError "query is required").emails = none ∧
    (SearchResponse.mkError "query is required").error = some "query is required" :=
  C7_missing_query (fun _ => Except.error "unused") [e1Doc] [] (fun _ => [])
    { query := none, limit := some 5 } rfl

/-! ## Lemmas: the descending sort behind `TopDocs` -/

theorem mem_insertDesc (score : Document → Nat) (d : Document) :
    ∀ (l : List Document) (y : Document), y ∈ insertDesc score d l ↔ y = d ∨ y ∈ l := by
  intro l
  induction l with
  | nil =>
    intro y
    simp [insertDesc]
  | cons x xs ih =>
    intro y
    unfold insertDesc
    by_cases hc : score x < score d
    · rw [if_pos hc]
      simp only [List.mem_cons]
    · rw [if_neg hc]
      simp only [List.mem_cons, ih]
      tauto

theorem pairwise_insertDesc (score : Document → Nat) (d : Document) :
    ∀ l : List Document, l.Pairwise (fun a b => score b ≤ score a) →
      (insertDesc score d l).Pairwise (fun a b => score b ≤ score a) := by
  intro l
  induction l with
  | nil =>
    intro _
    simp [insertDesc]
  | cons x xs ih =>
    intro hp
    rw [List.pairwise_cons] at hp
    obtain ⟨hx, hxs⟩ := hp
    unfold insertDesc
    by_cases hc : score x < score d
    · rw [if_pos hc, List.pairwise_cons]
      constructor
      · intro y hy
        rcases List.mem_cons.mp hy with rfl | hy'
        · omega
        · have := hx y hy'
          omega
      · rw [List.pairwise_cons]
        exact ⟨hx, hxs⟩
    · rw [if_neg hc, List.pairwise_cons]
      constructor
      · intro y hy
        rcases (mem_insertDesc score d xs y).mp hy with rfl | hy'
        · omega
        · exact hx y hy'
      · exact ih hxs

theorem pairwise_sortDesc (score : Document → Nat) :
    ∀ l : List Document, (sortDesc score l).Pairwise (fun a b => score b ≤ score a) := by
  intro l
  induction l with
  | nil => simp [sortDesc]
  | cons x xs ih => exact pairwise_insertDesc score x _ ih

theorem mem_sortDesc (score : Document → Nat) :
    ∀ (l : List Document) (y : Document), y ∈ sortDesc score l ↔ y ∈ l := by
  intro l
  induction l with
  | nil =>
    intro y
    simp [sortDesc]
  | cons x xs ih =>
    intro y
    simp only [sortDesc, mem_insertDesc, ih, List.mem_cons]

theorem topDocs_length_le (q : ParsedQuery) (docs : List Document) (limit : Nat) :
    (topDocs q docs limit).length ≤ limit :=
  List.length_take_le limit _

theorem topDocs_sorted (q : ParsedQuery) (docs : List Document) (limit : Nat) :
    (topDocs q docs limit).Pairwise (fun a b => q.score b ≤ q.score a) :=
  (pairwise_sortDesc q.score (docs.filter q.isMatch)).sublist (List.take_sublist _ _)

theorem topDocs_match (q : ParsedQuery) (docs : List Document) (limit : Nat) :
    ∀ d ∈ topDocs q docs limit, q.isMatch d = true := by
  intro d hd
  have h1 : d ∈ sortDesc q.score (docs.filter q.isMatch) :=
    List.mem_of_mem_take hd
  rw [mem_sortDesc] at h1
  exact (List.mem_filter.mp h1).2

/-! ## C5 -/

/-- C5: on a present query that parses, a successful search reports
`index_num_docs` as the snapshot's document count and `query_num_docs` as
the number of matching documents independent of the limit; the retrieved top
documents number at most `limit` (defaulting to 10 when absent), are all
matches, and descend in relevance score; the response's emails are the
hydration of exactly those top documents' identities. -/
theorem C5_search_success (parse : String → Except String ParsedQuery)
    (docs : List Document) (store : List String → List AttributeMap)
    (request : SearchRequest) (qs : String) (q : ParsedQuery) (resp : SearchResponse)
    (hq : request.query = some qs) (hp : parse qs = Except.ok q)
    (h : search parse docs store request = Except.ok resp) :
    resp.index_num_docs = some docs.length ∧
    resp.query_num_docs = some ((docs.filter q.isMatch).length) ∧
    resp.error = none ∧
    (request.limit = none → request.limit.getD 10 = 10) ∧
    (topDocs q docs (request.limit.getD 10)).length ≤ request.limit.getD 10 ∧
    (topDocs q docs (request.limit.getD 10)).Pairwise (fun a b => q.score b ≤ q.score a) ∧
    (∀ d ∈ topDocs q docs (request.limit.getD 10), q.isMatch d = true) ∧
    (∃ emails reqs,
       batch_get_items store
           ((topDocs q docs (request.limit.getD 10)).map Document.id) =
         Except.ok (emails, reqs) ∧
       resp.emails = some emails) := by
  obtain ⟨oq, olim⟩ := request
  have hqq : oq = some qs := hq
  subst hqq
  unfold search at h
  simp only at h
  rw [hp] at h
  simp only at h
  cases hbg : batch_get_items store
      ((topDocs q docs (olim.getD 10)).map Document.id) with
  | error e =>
    rw [show (({ query := some qs, limit := olim } : SearchRequest).limit.getD 10) =
          olim.getD 10 from rfl] at h
    rw [hbg] at h
    exact Except.noConfusion h
  | ok pair =>
    obtain ⟨emails, reqs⟩ := pair
    rw [show (({ query := some qs, limit := olim } : SearchRequest).limit.getD 10) =
          olim.getD 10 from rfl] at h
    rw [hbg] at h
    simp only [Except.ok.injEq] at h
    subst h
    refine ⟨rfl, rfl, rfl, ?_, ?_, ?_, ?_, ?_⟩
    · intro hnone
      have h2 : olim = none := hnone
      subst h2
      rfl
    · exact topDocs_length_le q docs _
    · exact topDocs_sorted q docs _
    · exact topDocs_match q docs _
    · exact ⟨emails, reqs, rfl, rfl⟩

/-- Witness for `C5_search_success`: one indexed document, a parser
returning the match-all query, the default limit, and a store answering the
hydration lookup. -/
theorem C5_search_success_witness :
    (SearchResponse.mkSuccess 1 1 [emailFor "e1"]).index_num_docs =
      some [e1Doc].length ∧
    (SearchResponse.mkSuccess 1 1 [emailFor "e1"]).query_num_docs =
      some (([e1Doc].filter allQuery.isMatch).length) ∧
    (SearchResponse.mkSuccess 1 1 [emailFor "e1"]).error = none ∧
    (({ query := some "hello", limit := none } : SearchRequest).limit = none →
       ({ query := some "hello", limit := none } : SearchRequest).limit.getD 10 = 10) ∧
    (topDocs allQuery [e1Doc]
        (({ query := some "hello", limit := none } : SearchRequest).limit.getD 10)).length ≤
      ({ query := some "hello", limit := none } : SearchRequest).limit.getD 10 ∧
    (topDocs allQuery [e1Doc]
        (({ query := some "hello", limit := none } : SearchRequest).limit.getD 10)).Pairwise
      (fun a b => allQuery.score b ≤ allQuery.score a) ∧
    (∀ d ∈ topDocs allQuery [e1Doc]
        (({ query := some "hello", limit := none } : SearchRequest).limit.getD 10),
       allQuery.isMatch d = true) ∧
    (∃ emails reqs,
       batch_get_items (fun keys => keys.map rowFor)
           ((topDocs allQuery [e1Doc]
               (({ query := some "hello", limit := none } : SearchRequest).limit.getD 10)).map
             Document.id) =
         Except.ok (emails, reqs) ∧
       (SearchResponse.mkSuccess 1 1 [emailFor "e1"]).emails = some emails) :=
  C5_search_success (fun _ => Except.ok allQuery) [e1Doc] (fun keys => keys.map rowFor)
    { query := some "hello", limit := none } "hello" allQuery
    (SearchResponse.mkSuccess 1 1 [emailFor "e1"]) rfl rfl rfl

/-! ## C8 -/

/-- C8: every `SearchResponse` the query pipeline returns populates exactly
one of the success triple (`index_num_docs`, `query_num_docs`, `emails`) or
the `error` field, never both. -/
theorem C8_response_shape (parse : String → Except String ParsedQuery)
    (docs : List Document) (store : List String → List AttributeMap)
    (request : SearchRequest) (resp : SearchResponse)
    (h : search parse docs store request = Except.ok resp) :
    (resp.error = none ∧ resp.index_num_docs.isSome = true ∧
     resp.query_num_docs.isSome = true ∧ resp.emails.isSome = true) ∨
    (resp.error.isSome = true ∧ resp.index_num_docs = none ∧
     resp.query_num_docs = none ∧ resp.emails = none) := by
  obtain ⟨oq, olim⟩ := request
  cases oq with
  | none =>
    unfold search at h
    simp only [Except.ok.injEq] at h
    subst h
    right
    exact ⟨rfl, rfl, rfl, rfl⟩
  | some qs =>
    unfold search at h
    simp only at h
    cases hp : parse qs with
    | error e =>
      rw [hp] at h
      simp only [Except.ok.injEq] at h
      subst h
      right
      exact ⟨rfl, rfl, rfl, rfl⟩
    | ok q =>
      rw [hp] at h
      simp only at h
      cases hbg : batch_get_items store
          ((topDocs q docs
             (({ query := some qs, limit := olim } : SearchRequest).limit.getD 10)).map
            Document.id) with
      | error e =>
        rw [hbg] at h
        exact Except.noConfusion h
      | ok pair =>
        obtain ⟨emails, reqs⟩ := pair
        rw [hbg] at h
        simp only [Except.ok.injEq] at h
        subst h
        left
        exact ⟨rfl, rfl, rfl, rfl⟩

/-- Witness for `C8_response_shape`: the error-shaped response of a
query-less request. -/
theorem C8_response_shape_witness :
    ((SearchResponse.mkError "query is required").error = none ∧
     (SearchResponse.mkError "query is required").index_num_docs.isSome = true ∧
     (SearchResponse.mkError "query is required").query_num_docs.isSome = true ∧
     (SearchResponse.mkError "query is required").emails.isSome = true) ∨
    ((SearchResponse.mkError "query is required").error.isSome = true ∧
     (SearchResponse.mkError "query is required").index_num_docs = none ∧
     (SearchResponse.mkError "query is required").query_num_docs = none ∧
     (SearchResponse.mkError "query is required").emails = none) :=
  C8_response_shape (fun _ => Except.error "unused") [] (fun _ => [])
    { query := none, limit := none } (SearchResponse.mkError "query is required") rfl

/-- Witness for `C10_unknown_event_frame`: an `"UNKNOWN"` record after one
well-formed `INSERT`. -/
theorem C10_unknown_event_frame_witness :
    ((∀ e, email_index_writer.index_write ([insertE1] ++ []) = Except.error e ↔
           email_index_writer.index_write ([insertE1] ++ unknownRec :: []) = Except.error e) ∧
     (∀ report ops,
        email_index_writer.index_write ([insertE1] ++ []) = Except.ok (report, ops) →
        email_index_writer.index_write ([insertE1] ++ unknownRec :: []) =
          Except.ok ({ total := report.total + 1, created := report.created,
                       updated := report.updated, deleted := report.deleted,
                       skipped := report.skipped + 1 }, ops))) ∧
    unknownRec.event_name = "UNKNOWN" :=
  ⟨C10_unknown_event_frame unknownRec (by decide) (by decide) (by decide) [insertE1] [],
   rfl⟩

end DDB
